import Mathlib

/-!
# Verification of the Njuskalo rental-ads scraper (`src/scraper.py`)

Shallow embedding of the scraper's data model and operations:

* `AdRecord` — the dict produced by `_parse_single_ad` (six optional string
  fields, Python dict equality is structural equality of the fields);
* Python string primitives (`str.strip`, `str.find`, slicing, `str.replace`,
  `str.split`) modelled over `List Char` to avoid UTF-8 byte positions;
* `_parse_single_ad`, `extract_ads`, `check_for_new_ads`;
* a JSON encoder mirroring `json.dump(ads, ensure_ascii=False, indent=2)` and
  a JSON parser for the emitted subset, used to state the save/load round
  trip at the AdSet type;
* a faithful model of `json.loads` over arbitrary content (the `Json` value
  type and `parseJson`), over which the loader `load_ads_from_file` is
  specified;
* the `scrape` cycle over an explicit file-system/SMTP state.
-/

namespace Scraper

/-! ### Python string primitives over `List Char` -/

/-- The whitespace characters stripped by Python `str.strip()`
(the ASCII portion: space, tab, LF, CR, vertical tab, form feed). -/
def pyIsSpace (c : Char) : Bool :=
  c = ' ' || c = '\t' || c = '\n' || c = '\r' || c = '\x0b' || c = '\x0c'

/-- Python `str.strip()` on a character list: drop whitespace from both ends. -/
def pyStripList (s : List Char) : List Char :=
  ((s.dropWhile pyIsSpace).reverse.dropWhile pyIsSpace).reverse

/-- Python `str.strip()` on a `String`. -/
def pyStrip (s : String) : String :=
  ⟨pyStripList s.toList⟩

/-- Index (in characters) of the first occurrence of `pat` in `s`, or `none`:
Python `s.find(pat)` with `-1` rendered as `none`. -/
def findSub (s pat : List Char) : Option Nat :=
  if pat.isPrefixOf s then some 0
  else
    match s with
    | [] => none
    | _ :: t => (findSub t pat).map (· + 1)

/-- Python `s.find(pat)` for strings (character index, `none` for `-1`). -/
def pyFind (s pat : String) : Option Nat :=
  findSub s.toList pat.toList

/-- Python slice `s[n:]` (character index). -/
def pyDrop (s : String) (n : Nat) : String :=
  ⟨s.toList.drop n⟩

/-- Replace every (leftmost, non-overlapping) occurrence of `pat` by `rep`:
Python `s.replace(pat, rep)` for a non-empty `pat` (the scraper only replaces
non-empty patterns). -/
def replaceList (pat rep : List Char) : List Char → List Char
  | [] => []
  | c :: t =>
    if pat.isPrefixOf (c :: t) then rep ++ replaceList pat rep (t.drop (pat.length - 1))
    else c :: replaceList pat rep t
termination_by s => s.length
decreasing_by
  · simp only [List.length_drop, List.length_cons]
    omega
  · simp

/-- Python `s.replace(old, new)` for strings. -/
def pyReplace (s old new : String) : String :=
  ⟨replaceList old.toList new.toList s.toList⟩

/-- Python `s.split("\n")[0]`: the text before the first line break
(the whole string when there is none). -/
def pySplitNlHead (s : String) : String :=
  ⟨s.toList.takeWhile (fun c => c ≠ '\n')⟩

/-! ### Data model -/

/-- One ad dict as built by `_parse_single_ad`: six optional string fields,
keyed in the source by the strings `"1. title"`, `"2. size"`, `"3. location"`,
`"4. price"`, `"5. description"`, `"6. link"`.  A field is `none` when the key
is absent from the dict.  Lean structural equality of `AdRecord` coincides
with Python `dict.__eq__` (same keys, same values, order-insensitive). -/
structure AdRecord where
  title : Option String
  size : Option String
  location : Option String
  price : Option String
  description : Option String
  link : Option String
deriving DecidableEq, Repr

/-- The empty dict `{}`. -/
def AdRecord.empty : AdRecord :=
  ⟨none, none, none, none, none, none⟩

/-- The keys present in the record, in the insertion order used by
`_parse_single_ad` (title, location, description, size, price, link). -/
def AdRecord.keys (r : AdRecord) : List String :=
  (r.title.map fun _ => "1. title").toList ++
  (r.location.map fun _ => "3. location").toList ++
  (r.description.map fun _ => "5. description").toList ++
  (r.size.map fun _ => "2. size").toList ++
  (r.price.map fun _ => "4. price").toList ++
  (r.link.map fun _ => "6. link").toList

/-- The six recognized field keys. -/
def recognizedKeys : List String :=
  ["1. title", "2. size", "3. location", "4. price", "5. description", "6. link"]

/-- One `<li class="EntityList-item--Regular">` listing block, abstracted to
the four sub-fragments `_parse_single_ad` looks up with BeautifulSoup `find`:
the text of `h3.entity-title`, the text of `div.entity-description-main`,
the text of `strong.price--hrk`, and the `href` of `a.link`; `none` when the
fragment is absent. -/
structure AdItem where
  title_el : Option String
  desc_el : Option String
  price_el : Option String
  link_el : Option String
deriving DecidableEq, Repr

/-! ### `_parse_single_ad` -/

/-- The location/description pair extracted from the stripped description
text: `description_text.find("Lokacija:")`, and when found, location is the
stripped tail after the label and description is the text with
`"Lokacija: " + location_text` removed (all occurrences, Python
`str.replace`) and stripped. -/
def locationAndDescription (description_text : String) : Option String × Option String :=
  match pyFind description_text ("Lokacija:") with
  | none => (none, none)
  | some loc_start =>
    let location_text := pyStrip (pyDrop description_text (loc_start + ("Lokacija:").length))
    (some location_text,
     some (pyStrip (pyReplace description_text ("Lokacija: " ++ location_text) (""))))

/-- The size extracted from the stripped description text:
`description_text.find("Stambena površina:")`, and when found, the tail after
the label, truncated at the first `"\n"` and stripped. -/
def sizeField (description_text : String) : Option String :=
  match pyFind description_text ("Stambena površina:") with
  | none => none
  | some size_start =>
    some (pyStrip (pySplitNlHead (pyDrop description_text
      (size_start + ("Stambena površina:").length))))

/-- Model of `_parse_single_ad`: turn one listing block into an ad dict. -/
def parse_single_ad (ad_item : AdItem) : AdRecord :=
  let title := ad_item.title_el.map pyStrip
  let locDescSize :=
    match ad_item.desc_el with
    | none => ((none, none), none)
    | some d =>
      let description_text := pyStrip d
      (locationAndDescription description_text, sizeField description_text)
  let price := ad_item.price_el.map fun p => pyStrip (pyReplace p ("\xa0") (""))
  let link := ad_item.link_el.map fun href => "https://www.njuskalo.hr" ++ href
  { title := title
    size := locDescSize.2
    location := locDescSize.1.1
    price := price
    description := locDescSize.1.2
    link := link }

/-! ### JSON serialization (`json.dump(ads, ensure_ascii=False, indent=2)`)

The snapshot files hold a JSON array of objects with string keys and string
values.  The encoder mirrors `json.dump` with `ensure_ascii=False` and
`indent=2`: non-ASCII characters verbatim, `"`/`\`/named control characters
short-escaped, remaining control characters as `\u00xx`, two-space
indentation. -/

/-- The key/value pairs of the dict, in `_parse_single_ad` insertion order
(title, location, description, size, price, link): the order `json.dump`
writes the members in. -/
def AdRecord.pairs (r : AdRecord) : List (String × String) :=
  (r.title.map fun v => (("1. title" : String), v)).toList ++
  (r.location.map fun v => (("3. location" : String), v)).toList ++
  (r.description.map fun v => (("5. description" : String), v)).toList ++
  (r.size.map fun v => (("2. size" : String), v)).toList ++
  (r.price.map fun v => (("4. price" : String), v)).toList ++
  (r.link.map fun v => (("6. link" : String), v)).toList

/-- Lower-case hex digit for a nibble. -/
def hexDigit (n : Nat) : Char :=
  if n < 10 then Char.ofNat (48 + n) else Char.ofNat (87 + n)

/-- Escaping of one character by `json.dump` (`ensure_ascii=False`): `"`, `\`
and the five named control characters get short escapes, the other control
characters become `\u00xx`, everything else is emitted verbatim. -/
def escapeChar (c : Char) : List Char :=
  if c = '"' then ['\\', '"']
  else if c = '\\' then ['\\', '\\']
  else if c = '\n' then ['\\', 'n']
  else if c = '\t' then ['\\', 't']
  else if c = '\r' then ['\\', 'r']
  else if c = '\x08' then ['\\', 'b']
  else if c = '\x0c' then ['\\', 'f']
  else if c.toNat < 0x20 then
    ['\\', 'u', hexDigit (c.toNat / 4096 % 16), hexDigit (c.toNat / 256 % 16),
     hexDigit (c.toNat / 16 % 16), hexDigit (c.toNat % 16)]
  else [c]

/-- The escaped body of a JSON string. -/
def encodeStringBody (s : List Char) : List Char :=
  s.flatMap escapeChar

/-- A JSON string literal. -/
def encodeJString (s : String) : List Char :=
  '"' :: (encodeStringBody s.toList ++ ['"'])

/-- One `"key": "value"` member. -/
def encodeMember (kv : String × String) : List Char :=
  encodeJString kv.1 ++ [':', ' '] ++ encodeJString kv.2

/-- Tail of an object body after its first member: each further member as
`",\n    " ++ member`, then the closing `"\n  \x7d"`. -/
def encodeMembersTail : List (String × String) → List Char
  | [] => ['\n', ' ', ' ', '\x7d']
  | kv :: rest => [',', '\n', ' ', ' ', ' ', ' '] ++ encodeMember kv ++ encodeMembersTail rest

/-- Body of an object after its opening brace: `json.dump`'s `indent=2`
rendering (members indented four spaces, closing brace two; the empty dict
closes immediately). -/
def recordBody (r : AdRecord) : List Char :=
  match r.pairs with
  | [] => ['\x7d']
  | kv :: rest => ['\n', ' ', ' ', ' ', ' '] ++ encodeMember kv ++ encodeMembersTail rest

/-- One ad dict at array depth. -/
def encodeRecord (r : AdRecord) : List Char :=
  '\x7b' :: recordBody r

/-- Tail of the array after its first element: each further element as
`",\n  " ++ object`, then the closing `"\n]"`. -/
def encodeElemsTail : List AdRecord → List Char
  | [] => ['\n', ']']
  | r :: rest => [',', '\n', ' ', ' '] ++ encodeRecord r ++ encodeElemsTail rest

/-- Body of the array after its opening bracket: the first element indented
two spaces, then the remaining elements, or an immediate `"]"` when empty. -/
def arrayBody : List AdRecord → List Char
  | [] => [']']
  | r :: rest => ['\n', ' ', ' '] ++ encodeRecord r ++ encodeElemsTail rest

/-- The serialized ad list: `json.dump(ads, file, ensure_ascii=False, indent=2)`.
The empty list is `"[]"`. -/
def encodeAds (ads : List AdRecord) : String :=
  ⟨'[' :: arrayBody ads⟩

/-- Content written by `save_ads_to_file(ads, file_path)`. -/
def save_ads_to_file (ads : List AdRecord) : String :=
  encodeAds ads

/-! ### JSON deserialization, snapshot-shaped view

A character-level parser for the JSON fragment the encoder emits: an array of
objects with string keys and string values, arbitrary JSON whitespace, full
string-escape handling.  This view agrees with `json.loads` on every output
of `encodeAds` (the round-trip theorem) and is used to state the save/load
round trip at the AdSet type; the faithful model of `json.loads` over
arbitrary content — any value shape, any keys — is the `Json` layer
below (`parseJson`, `load_json_from_file`). -/

/-- JSON whitespace. -/
def isJsonWs (c : Char) : Bool :=
  c = ' ' || c = '\t' || c = '\n' || c = '\r'

/-- Skip leading JSON whitespace. -/
def skipWs (s : List Char) : List Char :=
  s.dropWhile isJsonWs

/-- Value of a hex digit. -/
def hexVal (c : Char) : Option Nat :=
  if '0' ≤ c ∧ c ≤ '9' then some (c.toNat - 48)
  else if 'a' ≤ c ∧ c ≤ 'f' then some (c.toNat - 87)
  else if 'A' ≤ c ∧ c ≤ 'F' then some (c.toNat - 55)
  else none

/-- The character with the given code point, when valid. -/
def charFromCode (n : Nat) : Option Char :=
  if n.isValidChar then some (Char.ofNat n) else none

/-- Decode a short string escape. -/
def unescapeChar (e : Char) : Option Char :=
  if e = '"' then some '"'
  else if e = '\\' then some '\\'
  else if e = '/' then some '/'
  else if e = 'n' then some '\n'
  else if e = 't' then some '\t'
  else if e = 'r' then some '\r'
  else if e = 'b' then some '\x08'
  else if e = 'f' then some '\x0c'
  else none

/-- Parse the body of a JSON string after the opening quote, up to and
including the closing quote; returns the decoded characters and the rest of
the input.  Raw control characters are rejected (`json.loads` strict mode).
Surrogate-pair escapes do not occur in encoder output; the full string
grammar including them is handled by `parseJsonStringBody` below. -/
def parseStringBody : List Char → Option (List Char × List Char)
  | [] => none
  | '"' :: rest => some ([], rest)
  | '\\' :: 'u' :: h1 :: h2 :: h3 :: h4 :: rest => do
    let v1 ← hexVal h1
    let v2 ← hexVal h2
    let v3 ← hexVal h3
    let v4 ← hexVal h4
    let c ← charFromCode (v1 * 4096 + v2 * 256 + v3 * 16 + v4)
    let (cs, r) ← parseStringBody rest
    some (c :: cs, r)
  | '\\' :: e :: rest => do
    let c ← unescapeChar e
    let (cs, r) ← parseStringBody rest
    some (c :: cs, r)
  | c :: rest =>
    if c.toNat < 0x20 then none
    else do
      let (cs, r) ← parseStringBody rest
      some (c :: cs, r)

/-- Parse one `"key": "value"` member (leading whitespace allowed). -/
def parseMember (s : List Char) : Option ((List Char × List Char) × List Char) :=
  match skipWs s with
  | '"' :: r => do
    let (k, r1) ← parseStringBody r
    match skipWs r1 with
    | ':' :: r2 =>
      match skipWs r2 with
      | '"' :: r3 => do
        let (v, r4) ← parseStringBody r3
        some ((k, v), r4)
      | _ => none
    | _ => none
  | _ => none

/-- Parse the members following the first one: `, member`* then `\x7d`. -/
def parseMembersRest (fuel : Nat) (s : List Char) :
    Option (List (List Char × List Char) × List Char) :=
  match fuel with
  | 0 => none
  | fuel + 1 =>
    match skipWs s with
    | '\x7d' :: r => some ([], r)
    | ',' :: r => do
      let (kv, r1) ← parseMember r
      let (ms, r2) ← parseMembersRest fuel r1
      some (kv :: ms, r2)
    | _ => none

/-- Parse an object after its opening `\x7b`. -/
def parseObject (fuel : Nat) (s : List Char) :
    Option (List (List Char × List Char) × List Char) :=
  match skipWs s with
  | '\x7d' :: r => some ([], r)
  | _ => do
    let (kv, r1) ← parseMember s
    let (ms, r2) ← parseMembersRest fuel r1
    some (kv :: ms, r2)

/-- Parse the array elements following the first one: `, object`* then `]`. -/
def parseElemsRest (fuel : Nat) (s : List Char) :
    Option (List (List (List Char × List Char)) × List Char) :=
  match fuel with
  | 0 => none
  | fuel + 1 =>
    match skipWs s with
    | ']' :: r => some ([], r)
    | ',' :: r =>
      match skipWs r with
      | '\x7b' :: r1 => do
        let (obj, r2) ← parseObject fuel r1
        let (objs, r3) ← parseElemsRest fuel r2
        some (obj :: objs, r3)
      | _ => none
    | _ => none

/-- Parse an array of objects after its opening `[`. -/
def parseArray (fuel : Nat) (s : List Char) :
    Option (List (List (List Char × List Char)) × List Char) :=
  match skipWs s with
  | ']' :: r => some ([], r)
  | '\x7b' :: r1 => do
    let (obj, r2) ← parseObject fuel r1
    let (objs, r3) ← parseElemsRest fuel r2
    some (obj :: objs, r3)
  | _ => none

/-- Turn a parsed string-to-string object into an `AdRecord`, as building a
Python dict does: for each recognized key the last occurrence wins.  This is
the snapshot-shaped reading (encoder outputs carry only the six recognized
keys); an object with other keys is generally NOT an `AdRecord` — the `Json`
layer below keeps such dicts intact. -/
def pairsToRecord (ps : List (List Char × List Char)) : AdRecord :=
  let find := fun (k : String) =>
    (ps.reverse.lookup k.toList).map fun v => (⟨v⟩ : String)
  { title := find ("1. title")
    size := find ("2. size")
    location := find ("3. location")
    price := find ("4. price")
    description := find ("5. description")
    link := find ("6. link") }

/-- Snapshot-shaped reading of file content: an array of string-to-string
objects with nothing but whitespace around it.  On every output of
`encodeAds` this agrees with `json.loads`; it is NOT `json.loads` in general
(see `parseJson` for that). -/
def parseAds (s : String) : Option (List AdRecord) :=
  let cs := s.toList
  match skipWs cs with
  | '[' :: r => do
    let (objs, r1) ← parseArray (cs.length + 1) r
    if skipWs r1 = [] then some (objs.map pairsToRecord) else none
  | _ => none

/-- The loader viewed at the snapshot type, as the cycle uses it: the
`AdSet`-typed reading of `load_ads_from_file`, sound on everything
`save_ads_to_file` writes (the round-trip theorem).  `FileNotFoundError` and
`json.JSONDecodeError` are caught and yield `[]`; an empty file yields `[]`
(`json.loads(data) if data else []`).  The faithful model of the function
over arbitrary content is `load_json_from_file` below. -/
def load_ads_from_file (content : Option String) : List AdRecord :=
  match content with
  | none => []
  | some data =>
    if data.isEmpty then []
    else
      match parseAds data with
      | some ads => ads
      | none => []

/-! ### Full JSON values: `json.loads` in general

`load_ads_from_file` returns whatever `json.loads` produced, whatever its
shape — also `42`, `"x"`, or objects with unrecognized keys or non-string
values.  This layer models that faithfully.  `Json` is the type of
deserialized values: numbers keep their lexical form (the scraper never
interprets a number, and float semantics is out of a shallow embedding's
scope), objects are insertion-ordered dicts built with Python's last-wins
key update.  `parseJson` covers the full grammar `json.loads` accepts by
default, including `NaN`, `Infinity` and `-Infinity`.  The `parseAds` layer
above is the snapshot-shaped special case used to state the save/load round
trip; `jsonToAds` below says when a `Json` value is such a snapshot. -/

/-- A deserialized JSON value as `json.loads` returns it. -/
inductive Json where
  | null : Json
  | bool : Bool → Json
  | num : String → Json
  | str : String → Json
  | arr : List Json → Json
  | obj : List (String × Json) → Json

/-- Python dict update `d[k] = v`: replace the value in place when the key
exists, append otherwise. -/
def dictInsert (ms : List (String × Json)) (k : String) (v : Json) : List (String × Json) :=
  if ms.any fun kv => kv.1 == k then
    ms.map fun kv => if kv.1 == k then (kv.1, v) else kv
  else ms ++ [(k, v)]

/-- Build a Python dict from parsed members in order (duplicate keys:
last value wins, first position kept). -/
def collapseMembers (ps : List (String × Json)) : List (String × Json) :=
  ps.foldl (fun acc kv => dictInsert acc kv.1 kv.2) []

/-- Parse a JSON string body after the opening quote, full grammar: like
`parseStringBody`, plus surrogate-pair `\uXXXX\uXXXX` escapes decoding to one
character.  A lone surrogate — which `json.loads` would turn into a string no
Lean `String` can represent — is signalled as a failure. -/
def parseJsonStringBody : List Char → Option (List Char × List Char)
  | [] => none
  | '"' :: rest => some ([], rest)
  | '\\' :: 'u' :: h1 :: h2 :: h3 :: h4 :: rest => do
    let v1 ← hexVal h1
    let v2 ← hexVal h2
    let v3 ← hexVal h3
    let v4 ← hexVal h4
    let v := v1 * 4096 + v2 * 256 + v3 * 16 + v4
    if 0xD800 ≤ v ∧ v ≤ 0xDBFF then
      match rest with
      | '\\' :: 'u' :: g1 :: g2 :: g3 :: g4 :: rest2 => do
        let w1 ← hexVal g1
        let w2 ← hexVal g2
        let w3 ← hexVal g3
        let w4 ← hexVal g4
        let w := w1 * 4096 + w2 * 256 + w3 * 16 + w4
        if 0xDC00 ≤ w ∧ w ≤ 0xDFFF then do
          let c ← charFromCode (0x10000 + (v - 0xD800) * 0x400 + (w - 0xDC00))
          let (cs, r) ← parseJsonStringBody rest2
          some (c :: cs, r)
        else none
      | _ => none
    else do
      let c ← charFromCode v
      let (cs, r) ← parseJsonStringBody rest
      some (c :: cs, r)
  | '\\' :: e :: rest => do
    let c ← unescapeChar e
    let (cs, r) ← parseJsonStringBody rest
    some (c :: cs, r)
  | c :: rest =>
    if c.toNat < 0x20 then none
    else do
      let (cs, r) ← parseJsonStringBody rest
      some (c :: cs, r)

/-- Split off a maximal run of decimal digits. -/
def scanDigits (s : List Char) : List Char × List Char :=
  (s.takeWhile Char.isDigit, s.dropWhile Char.isDigit)

/-- Integer part of a JSON number: `0`, or a nonzero digit then digits. -/
def scanIntPart : List Char → Option (List Char × List Char)
  | '0' :: r => some (['0'], r)
  | c :: r =>
    if c.isDigit then
      let (ds, rest) := scanDigits r
      some (c :: ds, rest)
    else none
  | [] => none

/-- Optional fraction part `.digits`; consumed only when well-formed. -/
def scanFrac : List Char → List Char × List Char
  | '.' :: r =>
    let (ds, rest) := scanDigits r
    if ds.isEmpty then ([], '.' :: r) else ('.' :: ds, rest)
  | s => ([], s)

/-- Optional exponent part `[eE][+-]?digits`; consumed only when
well-formed. -/
def scanExp : List Char → List Char × List Char
  | e :: r =>
    if e = 'e' || e = 'E' then
      match r with
      | sgn :: r2 =>
        if sgn = '+' || sgn = '-' then
          let (ds, rest) := scanDigits r2
          if ds.isEmpty then ([], e :: sgn :: r2) else (e :: sgn :: ds, rest)
        else
          let (ds, rest) := scanDigits r
          if ds.isEmpty then ([], e :: r) else (e :: ds, rest)
      | [] => ([], [e])
    else ([], e :: r)
  | [] => ([], [])

/-- Lex one JSON number (`-?(0|[1-9]\d*)(\.\d+)?([eE][+-]?\d+)?`), returning
its lexical form and the rest of the input. -/
def scanNumber : List Char → Option (List Char × List Char)
  | '-' :: r => do
    let (ip, r1) ← scanIntPart r
    let (fp, r2) := scanFrac r1
    let (ep, r3) := scanExp r2
    some ('-' :: (ip ++ fp ++ ep), r3)
  | s => do
    let (ip, r1) ← scanIntPart s
    let (fp, r2) := scanFrac r1
    let (ep, r3) := scanExp r2
    some (ip ++ fp ++ ep, r3)

mutual

/-- Parse one JSON value (leading whitespace allowed): the `json.loads`
grammar with its default extensions `NaN`, `Infinity`, `-Infinity`. -/
def parseJsonValue : Nat → List Char → Option (Json × List Char)
  | 0, _ => none
  | fuel + 1, s =>
    match skipWs s with
    | 'n' :: 'u' :: 'l' :: 'l' :: r => some (Json.null, r)
    | 't' :: 'r' :: 'u' :: 'e' :: r => some (Json.bool true, r)
    | 'f' :: 'a' :: 'l' :: 's' :: 'e' :: r => some (Json.bool false, r)
    | 'N' :: 'a' :: 'N' :: r => some (Json.num ("NaN"), r)
    | 'I' :: 'n' :: 'f' :: 'i' :: 'n' :: 'i' :: 't' :: 'y' :: r =>
      some (Json.num ("Infinity"), r)
    | '-' :: 'I' :: 'n' :: 'f' :: 'i' :: 'n' :: 'i' :: 't' :: 'y' :: r =>
      some (Json.num ("-Infinity"), r)
    | '"' :: r => (parseJsonStringBody r).map fun p => (Json.str ⟨p.1⟩, p.2)
    | '[' :: r => parseJsonArray fuel r
    | '\x7b' :: r => parseJsonObject fuel r
    | r => (scanNumber r).map fun p => (Json.num ⟨p.1⟩, p.2)

/-- Parse an array after its opening bracket. -/
def parseJsonArray : Nat → List Char → Option (Json × List Char)
  | 0, _ => none
  | fuel + 1, s =>
    match skipWs s with
    | ']' :: r => some (Json.arr [], r)
    | _ => do
      let (v, r1) ← parseJsonValue fuel s
      let (vs, r2) ← parseJsonArrayRest fuel r1
      some (Json.arr (v :: vs), r2)

/-- Parse the array elements after the first one. -/
def parseJsonArrayRest : Nat → List Char → Option (List Json × List Char)
  | 0, _ => none
  | fuel + 1, s =>
    match skipWs s with
    | ']' :: r => some ([], r)
    | ',' :: r => do
      let (v, r1) ← parseJsonValue fuel r
      let (vs, r2) ← parseJsonArrayRest fuel r1
      some (v :: vs, r2)
    | _ => none

/-- Parse one `"key": value` object member. -/
def parseJsonMember : Nat → List Char → Option ((String × Json) × List Char)
  | 0, _ => none
  | fuel + 1, s =>
    match skipWs s with
    | '"' :: r => do
      let (k, r1) ← parseJsonStringBody r
      match skipWs r1 with
      | ':' :: r2 => do
        let (v, r3) ← parseJsonValue fuel r2
        some ((⟨k⟩, v), r3)
      | _ => none
    | _ => none

/-- Parse the object members after the first one. -/
def parseJsonObjRest : Nat → List Char → Option (List (String × Json) × List Char)
  | 0, _ => none
  | fuel + 1, s =>
    match skipWs s with
    | '\x7d' :: r => some ([], r)
    | ',' :: r => do
      let (kv, r1) ← parseJsonMember fuel r
      let (ms, r2) ← parseJsonObjRest fuel r1
      some (kv :: ms, r2)
    | _ => none

/-- Parse an object after its opening brace, building the member list the
way Python builds the dict. -/
def parseJsonObject : Nat → List Char → Option (Json × List Char)
  | 0, _ => none
  | fuel + 1, s =>
    match skipWs s with
    | '\x7d' :: r => some (Json.obj [], r)
    | _ => do
      let (kv, r1) ← parseJsonMember fuel s
      let (ms, r2) ← parseJsonObjRest fuel r1
      some (Json.obj (collapseMembers (kv :: ms)), r2)

end

/-- Model of `json.loads` on arbitrary content: one value, with nothing but
whitespace around it; `none` is a `json.JSONDecodeError`. -/
def parseJson (s : String) : Option Json :=
  let cs := s.toList
  match parseJsonValue (cs.length + 1) cs with
  | some (v, r) => if skipWs r = [] then some v else none
  | none => none

/-- Model of `load_ads_from_file(file_path)` over arbitrary file content
(`none` = the file does not exist): `FileNotFoundError` and
`json.JSONDecodeError` are caught and yield `[]`, an empty file yields `[]`
(`json.loads(data) if data else []`), and otherwise the deserialized value —
whatever its shape — is returned unchanged. -/
def load_json_from_file (content : Option String) : Json :=
  match content with
  | none => Json.arr []
  | some data =>
    if data.isEmpty then Json.arr []
    else
      match parseJson data with
      | some v => v
      | none => Json.arr []

/-- The string carried by a JSON string value. -/
def jsonString? : Json → Option String
  | .str s => some s
  | _ => none

/-- Read a JSON value as one ad dict of the data model: an object whose keys
are among the six recognized ones and whose values are strings. -/
def jsonToRecord : Json → Option AdRecord
  | .obj ms =>
    if ms.all fun kv => decide (kv.1 ∈ recognizedKeys) && (jsonString? kv.2).isSome then
      some { title := (ms.reverse.lookup ("1. title")).bind jsonString?
             size := (ms.reverse.lookup ("2. size")).bind jsonString?
             location := (ms.reverse.lookup ("3. location")).bind jsonString?
             price := (ms.reverse.lookup ("4. price")).bind jsonString?
             description := (ms.reverse.lookup ("5. description")).bind jsonString?
             link := (ms.reverse.lookup ("6. link")).bind jsonString? }
    else none
  | _ => none

/-- Read a JSON value as an ordered sequence of AdRecords. -/
def jsonToAds : Json → Option (List AdRecord)
  | .arr xs => xs.mapM jsonToRecord
  | _ => none

/-! ### `check_for_new_ads` -/

/-- Model of `check_for_new_ads(previous_ads, current_ads)`:
`[ad for ad in current_ads if ad not in previous_ads]`. -/
def check_for_new_ads (previous_ads current_ads : List AdRecord) : List AdRecord :=
  current_ads.filter fun ad => decide (ad ∉ previous_ads)

/-! ### Spec-side formulations for the description-block label scans

The spec describes the label scans without indices: the location is
"everything after the label through the end of the block", the size is "the
segment after the label, truncated at the first line break".  We state those
with `afterFirstOcc` (the suffix after the first occurrence of a pattern) and
compare them with the index-based code path (`pyFind`/`pyDrop`). -/

/-- Everything after the first occurrence of `pat` (empty when `pat` does not
occur). -/
def afterFirstOcc (pat : List Char) : List Char → List Char
  | [] => []
  | c :: t => if pat.isPrefixOf (c :: t) then (c :: t).drop pat.length else afterFirstOcc pat t

/-- Spec's location value: everything after the `"Lokacija:"` label through
the end of the (already stripped) description text, trimmed. -/
def specLocation (text : String) : String :=
  pyStrip ⟨afterFirstOcc ("Lokacija:").toList text.toList⟩

/-- Spec's size value: the segment after the `"Stambena površina:"` label,
truncated at the first line break, trimmed. -/
def specSize (text : String) : String :=
  pyStrip ⟨(afterFirstOcc ("Stambena površina:").toList text.toList).takeWhile
    (fun c => c ≠ '\n')⟩

/-- Sample record with only a title `"A"`. -/
def recA : AdRecord := { AdRecord.empty with title := some ("A") }

/-- Sample record with only a title `"B"`. -/
def recB : AdRecord := { AdRecord.empty with title := some ("B") }

/-- Sample description text exercising both labels, for the C6 witness. -/
def descW : String := "Lokacija: Zagreb\nStambena površina: 50 m2"

/-- Sample listing block carrying `descW`. -/
def itemW : AdItem := ⟨none, some descW, none, none⟩

/-- The C7 listing block: description text
`"Lokacija: Zagreb, Stambena površina: 50 m2\nExtra info"`. -/
def item7 : AdItem :=
  ⟨none, some ("Lokacija: Zagreb, Stambena površina: 50 m2\nExtra info"), none, none⟩

/-- A description fragment with no `"Lokacija:"` label, for the C10 witness. -/
def descNoLabel : String := "Samo opis bez oznake"

/-- Sample listing block carrying `descNoLabel`. -/
def itemNoLabel : AdItem := ⟨some ("Stan"), some descNoLabel, none, none⟩

/-- Fuel measure for parsing an encoded ad list: one unit per element plus
one per object member. -/
def adsFuel : List AdRecord → Nat
  | [] => 0
  | r :: rest => 1 + r.pairs.length + adsFuel rest

/-! ### The cycle: `extract_ads`, `send_notification`, `scrape`

The file system is explicit state (the contents of the two snapshot files),
the SMTP relay is an oracle bit (`smtpOk`: whether the send raises), and
BeautifulSoup is an uninterpreted selection function `soupItems` giving the
`li.EntityList-item--Regular` nodes of the markup in document order. -/

/-- State across one cycle: the contents of `current_ads.json` and
`previous_ads.json` (`none` = file absent) and the delivered emails. -/
structure SystemState where
  currentFile : Option String
  previousFile : Option String
  sentEmails : List String
deriving DecidableEq, Repr

/-- Model of `_build_email_body`: the HTML body listing the new ads, one
article per ad with its title heading and a key/value table of the dict
items in stored order. -/
def _build_email_body (new_ads : List AdRecord) : String :=
  "<html><body><h2>New Ads Found:</h2>" ++
  String.join (new_ads.map fun ad =>
    "<article style='margin-bottom: 20px; padding: 10px; border: 1px solid #ccc;'>" ++
    "<h3>" ++ (ad.title.getD ("")) ++ "</h3><table>" ++
    String.join (ad.pairs.map fun kv =>
      "<tr><td><strong>" ++ kv.1 ++ "</strong></td><td>" ++ kv.2 ++ "</td></tr>") ++
    "</table></article>") ++
  "</body></html>"

/-- Model of `send_notification`: no-op when `new_ads` is empty; otherwise
attempts the SMTP send (`smtpOk` is the oracle for whether the transport
raises).  A raised exception is caught and logged, so the function returns
normally in both cases; the result is the updated list of delivered emails. -/
def send_notification (smtpOk : Bool) (new_ads : List AdRecord)
    (sent : List String) : List String :=
  if new_ads.isEmpty then sent
  else if smtpOk then sent ++ [_build_email_body new_ads] else sent

/-- Outcome of `fetch_data`: a `FetchDataError` (transport error or
access-denial marker), or the page content. -/
inductive FetchResult where
  | failure : FetchResult
  | success : String → FetchResult
deriving DecidableEq

/-- Model of `extract_ads`: map `_parse_single_ad` over the listing nodes in
document order, and save the result to the current-ads file. -/
def extract_ads (soupItems : String → List AdItem) (html_content : String)
    (st : SystemState) : List AdRecord × SystemState :=
  let ads := (soupItems html_content).map parse_single_ad
  (ads, { st with currentFile := some (save_ads_to_file ads) })

/-- Model of `scrape`, one full cycle: fetch, extract, load previous, diff,
notify, persist current as previous.  A `FetchDataError` is caught and ends
the cycle with no state change; falsy (empty) page content skips the body. -/
def scrape (soupItems : String → List AdItem) (fetch : FetchResult) (smtpOk : Bool)
    (st : SystemState) : SystemState :=
  match fetch with
  | .failure => st
  | .success html_content =>
    if html_content.isEmpty then st
    else
      let res := extract_ads soupItems html_content st
      let current_ads := res.1
      let st1 := res.2
      let previous_ads := load_ads_from_file st1.previousFile
      let new_ads := check_for_new_ads previous_ads current_ads
      let sent := send_notification smtpOk new_ads st1.sentEmails
      { st1 with sentEmails := sent, previousFile := some (save_ads_to_file current_ads) }

/-- Initial system state: no snapshot files, nothing sent. -/
def st0 : SystemState := ⟨none, none, []⟩

/-- Concrete soup for the C8 witness: one listing node on any page. -/
def soupW : String → List AdItem := fun _ => [itemW]

/-- Concrete soup for the C9 witness: one label-free listing node. -/
def soupN : String → List AdItem := fun _ => [itemNoLabel]

/-- Bridge between the boolean prefix test and the prefix relation. -/
lemma isPrefixOf_iff (l1 l2 : List Char) : l1.isPrefixOf l2 = true ↔ l1 <+: l2 :=
  List.isPrefixOf_iff_prefix

/-- When `pat` occurs in `s`, `findSub` finds an index. -/
lemma findSub_isSome_of_occurs (pat : List Char) :
    ∀ s : List Char, pat <:+: s → (findSub s pat).isSome := by
  intro s
  induction s with
  | nil =>
    intro h
    rw [List.infix_nil] at h
    subst h
    simp [findSub, List.isPrefixOf]
  | cons c t ih =>
    intro h
    unfold findSub
    by_cases hp : pat.isPrefixOf (c :: t)
    · simp [hp]
    · have ht : pat <:+: t := by
        rcases List.infix_cons_iff.mp h with h' | h'
        · exact absurd ((isPrefixOf_iff pat (c :: t)).mpr h') hp
        · exact h'
      simpa [hp] using ih ht

/-- The suffix of `s` past the first occurrence of `pat`, computed from the
`findSub` index, is `afterFirstOcc pat s`. -/
lemma drop_findSub (pat : List Char) :
    ∀ (s : List Char) (i : Nat), findSub s pat = some i →
      s.drop (i + pat.length) = afterFirstOcc pat s := by
  intro s
  induction s with
  | nil =>
    intro i h
    unfold findSub at h
    split at h
    · simp [afterFirstOcc]
    · exact absurd h (by simp)
  | cons c t ih =>
    intro i h
    unfold findSub at h
    by_cases hp : pat.isPrefixOf (c :: t)
    · rw [if_pos hp] at h
      obtain rfl : (0 : Nat) = i := Option.some.inj h
      simp [afterFirstOcc, hp]
    · rw [if_neg hp] at h
      obtain ⟨j, hj, rfl⟩ : ∃ j, findSub t pat = some j ∧ j + 1 = i := by
        rcases Option.map_eq_some'.mp h with ⟨j, hj, hji⟩
        exact ⟨j, hj, hji⟩
      have : j + 1 + pat.length = (j + pat.length) + 1 := by omega
      rw [this, List.drop_succ_cons, ih j hj, afterFirstOcc, if_neg hp]

/-- Success of `findSub` is exactly occurrence of the pattern in the string. -/
lemma findSub_isSome_iff (pat : List Char) :
    ∀ s : List Char, (findSub s pat).isSome ↔ pat <:+: s := by
  intro s
  constructor
  · intro h
    induction s with
    | nil =>
      unfold findSub at h
      split at h
      · next hp => exact ((isPrefixOf_iff pat []).mp hp).isInfix
      · exact absurd h (by simp)
    | cons c t ih =>
      unfold findSub at h
      by_cases hp : pat.isPrefixOf (c :: t)
      · exact ((isPrefixOf_iff pat (c :: t)).mp hp).isInfix
      · rw [if_neg hp] at h
        have h2 : (Option.map (fun x => x + 1) (findSub t pat)).isSome = true := h
        have h' : (findSub t pat).isSome := by
          cases hfs : findSub t pat with
          | none => rw [hfs] at h2; simp at h2
          | some j => simp
        exact (ih h').trans (List.suffix_cons c t).isInfix
  · exact findSub_isSome_of_occurs pat s

/-- In the found case, `locationAndDescription` returns the spec's location
value and the text with the `"Lokacija: <value>"` substring removed,
trimmed. -/
lemma locationAndDescription_of_occurs (t : String)
    (h : ("Lokacija:").toList <:+: t.toList) :
    locationAndDescription t =
      (some (specLocation t),
       some (pyStrip (pyReplace t ("Lokacija: " ++ specLocation t) ("")))) := by
  obtain ⟨i, hi⟩ := Option.isSome_iff_exists.mp (findSub_isSome_of_occurs _ _ h)
  have hdrop := drop_findSub ("Lokacija:").toList t.toList i hi
  have hloc : pyStrip (pyDrop t (i + ("Lokacija:").length)) = specLocation t := by
    unfold pyDrop specLocation
    rw [show ("Lokacija:").length = ("Lokacija:").toList.length from rfl, hdrop]
  simp only [locationAndDescription, pyFind, hi, hloc]

/-- In the not-found case, `locationAndDescription` returns neither field. -/
lemma locationAndDescription_of_no_occurrence (t : String)
    (h : ¬ ("Lokacija:").toList <:+: t.toList) :
    locationAndDescription t = (none, none) := by
  have : findSub t.toList ("Lokacija:").toList = none := by
    rw [← Option.not_isSome_iff_eq_none, findSub_isSome_iff]
    exact h
  simp only [locationAndDescription, pyFind, this]

/-- In the found case, `sizeField` returns the spec's size value. -/
lemma sizeField_of_occurs (t : String)
    (h : ("Stambena površina:").toList <:+: t.toList) :
    sizeField t = some (specSize t) := by
  obtain ⟨i, hi⟩ := Option.isSome_iff_exists.mp (findSub_isSome_of_occurs _ _ h)
  have hdrop := drop_findSub ("Stambena površina:").toList t.toList i hi
  have hsz : pyStrip (pySplitNlHead (pyDrop t (i + ("Stambena površina:").length))) =
      specSize t := by
    unfold pyDrop pySplitNlHead specSize
    rw [show ("Stambena površina:").length = ("Stambena površina:").toList.length from rfl]
    rw [show String.toList ⟨t.toList.drop (i + ("Stambena površina:").toList.length)⟩ =
      t.toList.drop (i + ("Stambena površina:").toList.length) from rfl]
    rw [hdrop]
  simp only [sizeField, pyFind, hi, hsz]

/-! ### Theorems: differ (`check_for_new_ads`) -/

/-- C1: `check_for_new_ads(previous, current)` returns exactly those records
of `current` with no structurally equal record in `previous`
(membership characterization), in the relative order of `current`
(the result is a sublist of `current`), and duplicates of `current` absent
from `previous` each appear independently (multiplicities are preserved). -/
theorem check_for_new_ads_correct (previous current : List AdRecord) :
    (∀ a : AdRecord, a ∈ check_for_new_ads previous current ↔ a ∈ current ∧ a ∉ previous) ∧
    (check_for_new_ads previous current).Sublist current ∧
    (∀ a : AdRecord, a ∉ previous →
      (check_for_new_ads previous current).count a = current.count a) := by
  refine ⟨fun a => ?_, List.filter_sublist current, fun a ha => ?_⟩
  · simp [check_for_new_ads]
  · unfold check_for_new_ads
    rw [List.count_filter]
    simp [List.count_eq_countP, ha]

/-- C2: `check_for_new_ads(S, S)` is empty, and `check_for_new_ads([], current)`
is `current` itself, in order. -/
theorem check_for_new_ads_identities (S current : List AdRecord) :
    check_for_new_ads S S = [] ∧ check_for_new_ads [] current = current := by
  constructor
  · unfold check_for_new_ads
    rw [List.filter_eq_nil_iff]
    intro a ha
    simp [ha]
  · unfold check_for_new_ads
    rw [List.filter_eq_self]
    intro a _
    simp

/-- Witness for C1 at `previous = [recA]`, `current = [recA, recB]`:
`recB` is not in `previous`, and its multiplicity in the diff equals its
multiplicity in `current`. -/
theorem check_for_new_ads_correct_witness :
    recB ∉ [recA] ∧
    (check_for_new_ads [recA] [recA, recB]).count recB = [recA, recB].count recB :=
  ⟨by decide, (check_for_new_ads_correct [recA] [recA, recB]).2.2 recB (by decide)⟩

/-! ### Theorems: `_parse_single_ad` label scans -/

/-- C6: when the stripped description-block text contains `"Lokacija:"`, the
location field is everything after that label through the end of the block,
trimmed; the description field is the full text with the substring
`"Lokacija: <location value>"` removed and the remainder trimmed; and when the
text also contains `"Stambena površina:"`, the size field is the segment after
that label truncated at the first line break, trimmed. -/
theorem parse_single_ad_label_fields (item : AdItem) (d : String)
    (hdesc : item.desc_el = some d)
    (hloc : ("Lokacija:").toList <:+: (pyStrip d).toList) :
    (parse_single_ad item).location = some (specLocation (pyStrip d)) ∧
    (parse_single_ad item).description =
      some (pyStrip (pyReplace (pyStrip d)
        ("Lokacija: " ++ specLocation (pyStrip d)) (""))) ∧
    (("Stambena površina:").toList <:+: (pyStrip d).toList →
      (parse_single_ad item).size = some (specSize (pyStrip d))) := by
  simp only [parse_single_ad, hdesc]
  rw [locationAndDescription_of_occurs _ hloc]
  exact ⟨rfl, rfl, fun hsz => by rw [sizeField_of_occurs _ hsz]⟩

/-- Witness for C6 at a concrete listing block containing both labels. -/
theorem parse_single_ad_label_fields_witness :
    (parse_single_ad itemW).location = some (specLocation (pyStrip descW)) ∧
    (parse_single_ad itemW).size = some (specSize (pyStrip descW)) ∧
    specLocation (pyStrip descW) = "Zagreb\nStambena površina: 50 m2" ∧
    specSize (pyStrip descW) = "50 m2" := by
  have h := parse_single_ad_label_fields itemW descW rfl (by decide)
  exact ⟨h.1, h.2.2 (by decide), by decide, by decide⟩

/-- C7 counterexample: the location is NOT `"Zagreb, Stambena površina: 50 m2"`
— the scan takes everything through the end of the block, not up to the line
break. -/
theorem parse_single_ad_c7_counterexample :
    (parse_single_ad item7).location ≠ some ("Zagreb, Stambena površina: 50 m2") := by
  decide

/-- C7 amended: the location keeps the tail after the line break,
`"Zagreb, Stambena površina: 50 m2\nExtra info"` (the location scan runs on
the original text and takes everything to the end of the block; the size
scan is independent and yields `"50 m2"`). -/
theorem parse_single_ad_c7_location :
    (parse_single_ad item7).location =
      some ("Zagreb, Stambena površina: 50 m2\nExtra info") ∧
    (parse_single_ad item7).size = some ("50 m2") := by
  decide

/-- C10: the description field is present iff the location field is present;
in particular a block whose description fragment exists but whose (stripped)
text does not contain `"Lokacija:"` gets neither field. -/
theorem parse_single_ad_location_description_together (item : AdItem) :
    ((parse_single_ad item).description.isSome ↔ (parse_single_ad item).location.isSome) ∧
    (∀ d : String, item.desc_el = some d →
      ¬ ("Lokacija:").toList <:+: (pyStrip d).toList →
      (parse_single_ad item).location = none ∧
      (parse_single_ad item).description = none) := by
  constructor
  · cases hd : item.desc_el with
    | none => simp [parse_single_ad, hd]
    | some d =>
      simp only [parse_single_ad, hd]
      unfold locationAndDescription
      cases hfind : pyFind (pyStrip d) ("Lokacija:") with
      | none => simp [hfind]
      | some i => simp [hfind]
  · intro d hd hnot
    simp only [parse_single_ad, hd]
    rw [locationAndDescription_of_no_occurrence _ hnot]
    exact ⟨rfl, rfl⟩

/-- Witness for C10: a block with a description fragment but no label yields
neither a location nor a description field. -/
theorem parse_single_ad_location_description_together_witness :
    (parse_single_ad itemNoLabel).location = none ∧
    (parse_single_ad itemNoLabel).description = none :=
  (parse_single_ad_location_description_together itemNoLabel).2
    descNoLabel rfl (by decide)

/-! ### Roundtrip: the parser inverts the encoder -/

/-- Decoding inverts encoding of a hex nibble. -/
lemma hexVal_hexDigit (n : Nat) (h : n < 16) : hexVal (hexDigit n) = some n := by
  interval_cases n <;> decide

/-- Decoding a control character's code point yields the character back. -/
lemma charFromCode_toNat_of_lt (c : Char) (h : c.toNat < 32) :
    charFromCode c.toNat = some c := by
  unfold charFromCode
  rw [if_pos (Or.inl (by omega)), Char.ofNat_toNat]

/-- Parsing past one escaped character consumes exactly its escape and
produces the character. -/
lemma parseStringBody_escapeChar (c : Char) (s : List Char) :
    parseStringBody (escapeChar c ++ s) =
      (parseStringBody s).map fun p => (c :: p.1, p.2) := by
  unfold escapeChar
  split_ifs with h1 h2 h3 h4 h5 h6 h7 h8
  · subst h1; cases hp : parseStringBody s <;> simp [parseStringBody, unescapeChar, hp]
  · subst h2; cases hp : parseStringBody s <;> simp [parseStringBody, unescapeChar, hp]
  · subst h3; cases hp : parseStringBody s <;> simp [parseStringBody, unescapeChar, hp]
  · subst h4; cases hp : parseStringBody s <;> simp [parseStringBody, unescapeChar, hp]
  · subst h5; cases hp : parseStringBody s <;> simp [parseStringBody, unescapeChar, hp]
  · subst h6; cases hp : parseStringBody s <;> simp [parseStringBody, unescapeChar, hp]
  · subst h7; cases hp : parseStringBody s <;> simp [parseStringBody, unescapeChar, hp]
  · have e1 := hexVal_hexDigit (c.toNat / 4096 % 16) (by omega)
    have e2 := hexVal_hexDigit (c.toNat / 256 % 16) (by omega)
    have e3 := hexVal_hexDigit (c.toNat / 16 % 16) (by omega)
    have e4 := hexVal_hexDigit (c.toNat % 16) (by omega)
    have hv : c.toNat / 4096 % 16 * 4096 + c.toNat / 256 % 16 * 256 +
        c.toNat / 16 % 16 * 16 + c.toNat % 16 = c.toNat := by omega
    have e5 := charFromCode_toNat_of_lt c h8
    cases hp : parseStringBody s <;>
      simp [parseStringBody, e1, e2, e3, e4, hv, e5, hp]
  · cases hp : parseStringBody s <;>
      simp [parseStringBody, h1, h2, h8, hp]

/-- Parsing inverts encoding of a whole string body: the parser consumes the
escaped body and the closing quote and returns the original characters. -/
lemma parseStringBody_encode (cs rest : List Char) :
    parseStringBody (encodeStringBody cs ++ '"' :: rest) = some (cs, rest) := by
  induction cs with
  | nil => simp [encodeStringBody, parseStringBody]
  | cons c cs ih =>
    have : encodeStringBody (c :: cs) = escapeChar c ++ encodeStringBody cs := by
      simp [encodeStringBody]
    rw [this, List.append_assoc, parseStringBody_escapeChar, ih]
    rfl

/-- Skipping whitespace drops a leading whitespace character. -/
lemma skipWs_cons_ws (c : Char) (s : List Char) (h : isJsonWs c = true) :
    skipWs (c :: s) = skipWs s := by
  simp [skipWs, h]

/-- Skipping whitespace stops at a non-whitespace character. -/
lemma skipWs_cons_not (c : Char) (s : List Char) (h : isJsonWs c = false) :
    skipWs (c :: s) = c :: s := by
  simp [skipWs, h]

/-- Parsing inverts encoding of one `"key": "value"` member. -/
lemma parseMember_encode (k v : String) (rest : List Char) :
    parseMember (encodeMember (k, v) ++ rest) = some ((k.toList, v.toList), rest) := by
  simp only [encodeMember, encodeJString, List.append_assoc, List.cons_append, List.nil_append]
  simp [parseMember, skipWs, isJsonWs, parseStringBody_encode]

/-- A member parse ignores leading whitespace. -/
lemma parseMember_cons_ws (c : Char) (s : List Char) (h : isJsonWs c = true) :
    parseMember (c :: s) = parseMember s := by
  unfold parseMember
  rw [skipWs_cons_ws _ _ h]

/-- An encoded member starts with a quote, so whitespace skipping leaves it
alone. -/
lemma skipWs_encodeMember (kv : String × String) (X : List Char) :
    skipWs (encodeMember kv ++ X) = encodeMember kv ++ X := by
  simp only [encodeMember, encodeJString, List.cons_append, List.append_assoc]
  rw [skipWs_cons_not _ _ (by decide)]

/-- Parsing inverts encoding of the member chain after the first member. -/
lemma parseMembersRest_encode (ps : List (String × String)) :
    ∀ (fuel : Nat) (follow : List Char), ps.length < fuel →
    parseMembersRest fuel (encodeMembersTail ps ++ follow) =
      some (ps.map fun kv => (kv.1.toList, kv.2.toList), follow) := by
  induction ps with
  | nil =>
    intro fuel follow h
    obtain ⟨f, rfl⟩ : ∃ f, fuel = f + 1 := ⟨fuel - 1, by omega⟩
    simp [encodeMembersTail, parseMembersRest, skipWs, isJsonWs]
  | cons kv rest ih =>
    intro fuel follow h
    obtain ⟨f, rfl⟩ : ∃ f, fuel = f + 1 := ⟨fuel - 1, by omega⟩
    simp only [encodeMembersTail, List.append_assoc, List.cons_append, List.nil_append]
    have hm : parseMember
        ('\n' :: ' ' :: ' ' :: ' ' :: ' ' ::
          (encodeMember kv ++ (encodeMembersTail rest ++ follow))) =
        some ((kv.1.toList, kv.2.toList), encodeMembersTail rest ++ follow) := by
      rw [parseMember_cons_ws _ _ (by decide), parseMember_cons_ws _ _ (by decide),
        parseMember_cons_ws _ _ (by decide), parseMember_cons_ws _ _ (by decide),
        parseMember_cons_ws _ _ (by decide)]
      exact parseMember_encode kv.1 kv.2 _
    have hrest := ih f follow (by simpa using Nat.lt_of_succ_lt_succ h)
    simp [parseMembersRest, skipWs, isJsonWs, hm, hrest]

/-- Parsing inverts encoding of one object body. -/
lemma parseObject_encode (r : AdRecord) (fuel : Nat) (follow : List Char)
    (h : r.pairs.length < fuel) :
    parseObject fuel (recordBody r ++ follow) =
      some (r.pairs.map fun kv => (kv.1.toList, kv.2.toList), follow) := by
  cases hp : r.pairs with
  | nil => simp [recordBody, hp, parseObject, skipWs, isJsonWs]
  | cons kv rest =>
    rw [hp] at h
    simp only [recordBody, hp, List.append_assoc, List.cons_append, List.nil_append]
    have hskip : skipWs
        ('\n' :: ' ' :: ' ' :: ' ' :: ' ' ::
          (encodeMember kv ++ (encodeMembersTail rest ++ follow))) =
        encodeMember kv ++ (encodeMembersTail rest ++ follow) := by
      rw [skipWs_cons_ws _ _ (by decide), skipWs_cons_ws _ _ (by decide),
        skipWs_cons_ws _ _ (by decide), skipWs_cons_ws _ _ (by decide),
        skipWs_cons_ws _ _ (by decide)]
      exact skipWs_encodeMember kv _
    have hm : parseMember
        ('\n' :: ' ' :: ' ' :: ' ' :: ' ' ::
          (encodeMember kv ++ (encodeMembersTail rest ++ follow))) =
        some ((kv.1.toList, kv.2.toList), encodeMembersTail rest ++ follow) := by
      rw [parseMember_cons_ws _ _ (by decide), parseMember_cons_ws _ _ (by decide),
        parseMember_cons_ws _ _ (by decide), parseMember_cons_ws _ _ (by decide),
        parseMember_cons_ws _ _ (by decide)]
      exact parseMember_encode kv.1 kv.2 _
    have hrest := parseMembersRest_encode rest fuel follow (by
      simp only [List.length_cons] at h
      omega)
    unfold parseObject
    split
    · next r' heq =>
      rw [hskip] at heq
      simp [encodeMember, encodeJString] at heq
    · simp [hm, hrest]

/-- Parsing inverts encoding of the element chain after the first element. -/
lemma parseElemsRest_encode (ads : List AdRecord) :
    ∀ (fuel : Nat) (follow : List Char), adsFuel ads < fuel →
    parseElemsRest fuel (encodeElemsTail ads ++ follow) =
      some (ads.map fun r => r.pairs.map fun kv => (kv.1.toList, kv.2.toList), follow) := by
  induction ads with
  | nil =>
    intro fuel follow h
    obtain ⟨f, rfl⟩ : ∃ f, fuel = f + 1 := ⟨fuel - 1, by omega⟩
    simp [encodeElemsTail, parseElemsRest, skipWs, isJsonWs]
  | cons r rest ih =>
    intro fuel follow h
    obtain ⟨f, rfl⟩ : ∃ f, fuel = f + 1 := ⟨fuel - 1, by omega⟩
    simp only [adsFuel] at h
    simp only [encodeElemsTail, encodeRecord, List.append_assoc, List.cons_append,
      List.nil_append]
    have hobj := parseObject_encode r f (encodeElemsTail rest ++ follow) (by omega)
    have hrest := ih f follow (by omega)
    simp [parseElemsRest, skipWs, isJsonWs, hobj, hrest]

/-- Parsing inverts encoding of the whole array body. -/
lemma parseArray_encode (ads : List AdRecord) (fuel : Nat) (follow : List Char)
    (h : adsFuel ads < fuel) :
    parseArray fuel (arrayBody ads ++ follow) =
      some (ads.map fun r => r.pairs.map fun kv => (kv.1.toList, kv.2.toList), follow) := by
  cases ads with
  | nil => simp [arrayBody, parseArray, skipWs, isJsonWs]
  | cons r rest =>
    simp only [adsFuel] at h
    simp only [arrayBody, encodeRecord, List.append_assoc, List.cons_append, List.nil_append]
    have hobj := parseObject_encode r fuel (encodeElemsTail rest ++ follow) (by omega)
    have hrest := parseElemsRest_encode rest fuel follow (by omega)
    simp [parseArray, skipWs, isJsonWs, hobj, hrest]

set_option maxHeartbeats 1600000 in
/-- Rebuilding a record from its own encoded pair list is the identity. -/
lemma pairsToRecord_pairs (r : AdRecord) :
    pairsToRecord (r.pairs.map fun kv => (kv.1.toList, kv.2.toList)) = r := by
  obtain ⟨t, s, l, p, d, k⟩ := r
  cases t <;> cases s <;> cases l <;> cases p <;> cases d <;> cases k <;> rfl

/-- Lower bound on the encoded length of a member chain. -/
lemma encodeMembersTail_length (ps : List (String × String)) :
    ps.length + 4 ≤ (encodeMembersTail ps).length := by
  induction ps with
  | nil => simp [encodeMembersTail]
  | cons kv rest ih =>
    simp only [encodeMembersTail, List.length_append, List.length_cons]
    omega

/-- Lower bound on the encoded length of an object body. -/
lemma recordBody_length (r : AdRecord) :
    r.pairs.length + 1 ≤ (recordBody r).length := by
  cases hp : r.pairs with
  | nil => simp [recordBody, hp]
  | cons kv rest =>
    have := encodeMembersTail_length rest
    simp only [recordBody, hp, List.length_append, List.length_cons]
    omega

/-- Lower bound on the encoded length of an element chain. -/
lemma encodeElemsTail_length (ads : List AdRecord) :
    adsFuel ads + 2 ≤ (encodeElemsTail ads).length := by
  induction ads with
  | nil => simp [encodeElemsTail, adsFuel]
  | cons r rest ih =>
    have := recordBody_length r
    simp only [encodeElemsTail, encodeRecord, adsFuel, List.length_append,
      List.length_cons] at *
    omega

/-- Lower bound on the encoded length of an array body. -/
lemma arrayBody_length (ads : List AdRecord) :
    adsFuel ads + 1 ≤ (arrayBody ads).length := by
  cases ads with
  | nil => simp [arrayBody, adsFuel]
  | cons r rest =>
    have h1 := recordBody_length r
    have h2 := encodeElemsTail_length rest
    simp only [arrayBody, encodeRecord, adsFuel, List.length_append,
      List.length_cons] at *
    omega

/-- Parsing inverts encoding of a whole ad list. -/
lemma parseAds_encodeAds (ads : List AdRecord) :
    parseAds (encodeAds ads) = some ads := by
  have htl : (encodeAds ads).toList = '[' :: arrayBody ads := rfl
  unfold parseAds
  simp only [htl, List.length_cons]
  rw [skipWs_cons_not _ _ (by decide)]
  have hfuel : adsFuel ads < (arrayBody ads).length + 1 + 1 := by
    have := arrayBody_length ads
    omega
  have harr := parseArray_encode ads ((arrayBody ads).length + 1 + 1) [] (by omega)
  rw [List.append_nil] at harr
  simp only [harr]
  simp only [skipWs, List.dropWhile_nil, List.map_map]
  have hid : pairsToRecord ∘
      (fun r : AdRecord => List.map (fun kv : String × String => (kv.1.data, kv.2.data)) r.pairs) =
      id :=
    funext fun r => pairsToRecord_pairs r
  simp [hid]

/-- C5: saving an AdSet and loading it back yields a structurally equal
AdSet, for every AdSet (including the empty one and records with non-ASCII
text). -/
theorem save_load_roundtrip (ads : List AdRecord) :
    load_ads_from_file (some (save_ads_to_file ads)) = ads := by
  have hne : (encodeAds ads).isEmpty = false := rfl
  simp [load_ads_from_file, save_ads_to_file, hne, parseAds_encodeAds]

/-- C4: the loader never raises — it is a total function of the file
content.  A missing file or content `json.loads` rejects yields the empty
list; otherwise the deserialized value is returned unchanged, whatever its
shape; in particular, content deserializing to an ordered sequence of
AdRecords yields exactly that sequence. -/
theorem load_json_total_spec :
    load_json_from_file none = Json.arr [] ∧
    (∀ s : String, parseJson s = none → load_json_from_file (some s) = Json.arr []) ∧
    (∀ (s : String) (v : Json), parseJson s = some v →
      load_json_from_file (some s) = v) ∧
    (∀ (s : String) (v : Json) (ads : List AdRecord),
      parseJson s = some v → jsonToAds v = some ads →
      jsonToAds (load_json_from_file (some s)) = some ads) := by
  have hmain : ∀ (s : String) (v : Json), parseJson s = some v →
      load_json_from_file (some s) = v := by
    intro s v h
    unfold load_json_from_file
    have he : s.isEmpty = false := by
      by_contra hne
      rw [Bool.not_eq_false, String.isEmpty_iff] at hne
      subst hne
      rw [show parseJson "" = none from rfl] at h
      exact Option.noConfusion h
    simp [he, h]
  refine ⟨rfl, fun s h => ?_, hmain, fun s v ads hp hads => ?_⟩
  · unfold load_json_from_file
    by_cases he : s.isEmpty <;> simp [he, h]
  · rw [hmain s v hp, hads]

/-- Witness for C4 at concrete contents: junk loads as the empty array;
`"42"` — valid JSON that is no AdSet — loads as the number 42 itself; a
snapshot-shaped array loads as exactly its AdRecord sequence. -/
theorem load_json_total_spec_witness :
    load_json_from_file (some ("not json")) = Json.arr [] ∧
    load_json_from_file (some ("42")) = Json.num ("42") ∧
    jsonToAds (load_json_from_file (some ("[\x7b\"1. title\": \"x\"\x7d]"))) =
      some [{ AdRecord.empty with title := some ("x") }] :=
  ⟨load_json_total_spec.2.1 ("not json") (by rfl),
   load_json_total_spec.2.2.1 ("42") (Json.num ("42")) (by rfl),
   load_json_total_spec.2.2.2 ("[\x7b\"1. title\": \"x\"\x7d]")
     (Json.arr [Json.obj [("1. title", Json.str ("x"))]])
     [{ AdRecord.empty with title := some ("x") }] (by rfl) (by rfl)⟩

/-- Every key a parsed record can carry is one of the six recognized keys. -/
lemma keys_subset (r : AdRecord) : ∀ k ∈ AdRecord.keys r, k ∈ recognizedKeys := by
  have hone : ∀ (o : Option String) (key : String), key ∈ recognizedKeys →
      ∀ k ∈ (o.map fun _ => key).toList, k ∈ recognizedKeys := by
    intro o key hkey k hk
    cases o with
    | none => simp at hk
    | some v =>
      simp at hk
      subst hk
      exact hkey
  intro k hk
  simp only [AdRecord.keys, List.mem_append] at hk
  rcases hk with ((((hk | hk) | hk) | hk) | hk) | hk
  · exact hone r.title ("1. title") (by decide) k hk
  · exact hone r.location ("3. location") (by decide) k hk
  · exact hone r.description ("5. description") (by decide) k hk
  · exact hone r.size ("2. size") (by decide) k hk
  · exact hone r.price ("4. price") (by decide) k hk
  · exact hone r.link ("6. link") (by decide) k hk

/-- C3: for markup containing N listing blocks, `extract_ads` returns exactly
N records, each with keys among the six recognized fields, and the i-th
record is the parse of the i-th listing node (document order preserved). -/
theorem extract_ads_shape (soupItems : String → List AdItem) (html_content : String)
    (st : SystemState) :
    ((extract_ads soupItems html_content st).1).length = (soupItems html_content).length ∧
    (∀ r ∈ (extract_ads soupItems html_content st).1,
      ∀ k ∈ AdRecord.keys r, k ∈ recognizedKeys) ∧
    (∀ i : Nat, ((extract_ads soupItems html_content st).1)[i]? =
      ((soupItems html_content)[i]?).map parse_single_ad) := by
  refine ⟨by simp [extract_ads], fun r _ k hk => keys_subset r k hk,
    fun i => by simp [extract_ads]⟩

/-- Witness for C3 at a concrete two-node page. -/
theorem extract_ads_shape_witness :
    ("1. title" : String) ∈ recognizedKeys ∧
    ((extract_ads (fun _ => [itemW, itemNoLabel]) ("<html>") st0).1).length = 2 := by
  have h := extract_ads_shape (fun _ => [itemW, itemNoLabel]) ("<html>") st0
  exact ⟨h.2.1 (parse_single_ad itemNoLabel) (by decide) ("1. title") (by decide),
    by rw [h.1]; rfl⟩

/-- C8: with a non-empty new-ads set, an SMTP error during the send is caught
and does not propagate: the cycle still persists the extracted AdSet to the
previous-snapshot file, exactly as it does when the send succeeds. -/
theorem scrape_notify_error_swallowed (soupItems : String → List AdItem)
    (html_content : String) (st : SystemState)
    (hc : html_content.isEmpty = false)
    (hnew : check_for_new_ads (load_ads_from_file st.previousFile)
      ((soupItems html_content).map parse_single_ad) ≠ []) :
    (scrape soupItems (FetchResult.success html_content) false st).previousFile =
      some (save_ads_to_file ((soupItems html_content).map parse_single_ad)) ∧
    (scrape soupItems (FetchResult.success html_content) false st).previousFile =
      (scrape soupItems (FetchResult.success html_content) true st).previousFile := by
  constructor <;> simp [scrape, extract_ads, hc]

/-- Witness for C8 at a concrete page with one (new) ad. -/
theorem scrape_notify_error_swallowed_witness :
    (scrape soupW (FetchResult.success ("<html>")) false st0).previousFile =
      some (save_ads_to_file ((soupW "<html>").map parse_single_ad)) ∧
    (scrape soupW (FetchResult.success ("<html>")) false st0).previousFile =
      (scrape soupW (FetchResult.success ("<html>")) true st0).previousFile :=
  scrape_notify_error_swallowed soupW ("<html>") st0 (by decide) (by decide)

/-- C9: a successfully completed cycle leaves the previous-snapshot file
holding exactly the serialized AdSet extracted in that cycle (loading it back
gives that AdSet) — never a merge of old and new. -/
theorem scrape_persists_exact (soupItems : String → List AdItem) (html_content : String)
    (smtpOk : Bool) (st : SystemState) (hc : html_content.isEmpty = false) :
    (scrape soupItems (FetchResult.success html_content) smtpOk st).previousFile =
      some (save_ads_to_file ((soupItems html_content).map parse_single_ad)) ∧
    load_ads_from_file
      (scrape soupItems (FetchResult.success html_content) smtpOk st).previousFile =
      (soupItems html_content).map parse_single_ad := by
  have h1 : (scrape soupItems (FetchResult.success html_content) smtpOk st).previousFile =
      some (save_ads_to_file ((soupItems html_content).map parse_single_ad)) := by
    simp [scrape, extract_ads, hc]
  exact ⟨h1, by rw [h1]; exact save_load_roundtrip _⟩

/-- Witness for C9 at a concrete page, with a failing send. -/
theorem scrape_persists_exact_witness :
    (scrape soupN (FetchResult.success ("<p>")) false st0).previousFile =
      some (save_ads_to_file ((soupN "<p>").map parse_single_ad)) ∧
    load_ads_from_file (scrape soupN (FetchResult.success ("<p>")) false st0).previousFile =
      (soupN "<p>").map parse_single_ad :=
  scrape_persists_exact soupN ("<p>") false st0 (by decide)

end Scraper
